import Mathlib

/-!
Verification of the golden-file comparison library (`golden_files.go`).

Texts are modelled as `List Char`.  Go strings are byte strings, but every
character the library's patterns can match or produce is ASCII, so code
points coincide with bytes at every position that matters; offsets are
measured in characters, which preserves the relative order of byte offsets.

Each definition translates the Go function of the same name.  The regular
expressions of the source are translated into explicit matchers; comments
justify, choice point by choice point, that the explicit matcher computes
exactly the match Go's leftmost-first (RE2, Perl-style alternation and
greediness) engine selects.  Scanning loops recurse on an explicit fuel
argument, always called with the string length, so that they remain
structurally recursive (and hence computable inside the kernel); a fuel
step is spent per position examined and the text shrinks by at least one
character per step, so the fuel never runs out.
-/

/-! ## Character classes of the UUID pattern in `findUUIDs`

The source pattern is
`[0-9a-fA-F]{8}-[0-9a-fA-F]{4}-[1-5][0-9a-fA-F]{3}-[89abAB][0-9a-fA-F]{3}-[0-9a-fA-F]{12}`. -/

/-- Decimal digit `[0-9]`. -/
def isDigitCh (c : Char) : Bool := 48 ≤ c.toNat && c.toNat ≤ 57

/-- Hexadecimal digit `[0-9a-fA-F]`. -/
def isHexDigit (c : Char) : Bool :=
  (48 ≤ c.toNat && c.toNat ≤ 57) || (97 ≤ c.toNat && c.toNat ≤ 102) ||
    (65 ≤ c.toNat && c.toNat ≤ 70)

/-- UUID version digit `[1-5]`. -/
def isVersionDigit (c : Char) : Bool := 49 ≤ c.toNat && c.toNat ≤ 53

/-- UUID variant nibble `[89abAB]`. -/
def isVariantNibble (c : Char) : Bool :=
  c.toNat = 56 || c.toNat = 57 || c.toNat = 97 || c.toNat = 98 ||
    c.toNat = 65 || c.toNat = 66

/-- The literal `-` of the UUID pattern. -/
def isDashCh (c : Char) : Bool := c.toNat = 45

/-- A fixed-width pattern is a list of character predicates; it matches a
string when the string's first characters satisfy them position by
position (further characters are unconstrained). -/
def matchPattern : List (Char → Bool) → List Char → Bool
  | [], _ => true
  | _ :: _, [] => false
  | p :: ps, c :: cs => p c && matchPattern ps cs

/-- Positions 0 to 13 of the UUID pattern: `[0-9a-fA-F]{8}-[0-9a-fA-F]{4}-`. -/
def uuidPatPre : List (Char → Bool) :=
  List.replicate 8 isHexDigit ++ [isDashCh] ++ List.replicate 4 isHexDigit ++ [isDashCh]

/-- Positions 15 to 19 of the UUID pattern: `[0-9a-fA-F]{3}-`. -/
def uuidPatMid : List (Char → Bool) :=
  List.replicate 3 isHexDigit ++ [isDashCh]

/-- Positions 20 to 35 of the UUID pattern: `[0-9a-fA-F]{3}-[0-9a-fA-F]{12}`. -/
def uuidPatTail : List (Char → Bool) :=
  List.replicate 3 isHexDigit ++ [isDashCh] ++ List.replicate 12 isHexDigit

/-- The full 36-position UUID pattern of `findUUIDs`, with the version
digit at position 14 and the variant nibble at position 19. -/
def uuidPattern : List (Char → Bool) :=
  uuidPatPre ++ [isVersionDigit] ++ uuidPatMid ++ [isVariantNibble] ++ uuidPatTail

/-- The unconstrained 8-4-4-4-12 hex-hyphen shape: like `uuidPattern` but
with plain hex digits in the version and variant positions. -/
def genericUUIDPattern : List (Char → Bool) :=
  uuidPatPre ++ [isHexDigit] ++ uuidPatMid ++ [isHexDigit] ++ uuidPatTail

/-- Fuel-indexed core of `findAllUUIDMatches`. -/
def findAllUUIDMatchesF : Nat → Nat → List Char → List (Nat × List Char)
  | _, _, [] => []
  | 0, _, _ => []
  | fuel + 1, pos, c :: rest =>
    if matchPattern uuidPattern (c :: rest) then
      (pos, (c :: rest).take 36) :: findAllUUIDMatchesF fuel (pos + 36) (rest.drop 35)
    else
      findAllUUIDMatchesF fuel (pos + 1) rest

/-- Models `uuidRegexp.FindAllString(str, -1)`, additionally recording the
offset of each match.  Go's engine returns successive non-overlapping
matches: the leftmost match first, then it continues scanning at the end
of that match.  For a fixed-width pattern this is exactly: test each
position left to right, and on a match skip its 36 characters. -/
def findAllUUIDMatches (pos : Nat) (s : List Char) : List (Nat × List Char) :=
  findAllUUIDMatchesF s.length pos s

/-- Lower-cases a hex letter, leaving every other character unchanged. -/
def toLowerHex (c : Char) : Char :=
  if 65 ≤ c.toNat && c.toNat ≤ 70 then Char.ofNat (c.toNat + 32) else c

/-- Models `uuid.FromString(m)` followed by `.String()` on a string `m`
matched by the UUID pattern: the satori library parses the hyphenated hex
digits case-insensitively into 16 bytes, and `String()` renders those
bytes back in canonical lower-case hyphenated form.  On a 36-character
canonical match this round trip is exactly lower-casing the hex letters.
The parsed value is identified with this canonical textual form. -/
def uuidValue (m : List Char) : List Char := m.map toLowerHex

/-- Models the `uniqIDs` map plus `res` slice loop of `findUUIDs`: keep
the first occurrence of each value, in order of first appearance. -/
def uniqFirstAux : List (List Char) → List (List Char) → List (List Char)
  | _, [] => []
  | seen, x :: xs =>
    if x ∈ seen then uniqFirstAux seen xs
    else x :: uniqFirstAux (x :: seen) xs

/-- Models `findUUIDs`: all regex matches, parsed (`uuidValue`),
de-duplicated by parsed value keeping first-appearance order.  Parsing
cannot fail on a regex match, so the Go error path is dead and the
function is total. -/
def findUUIDs (str : List Char) : List (List Char) :=
  uniqFirstAux [] ((findAllUUIDMatches 0 str).map (fun pm => uuidValue pm.2))

/-- Models `fmt.Sprintf("00000000-0000-0000-0000-%012d", n)`: the fixed
24-character head followed by the decimal rendering of `n`, left-padded
with zeros to width 12. -/
def uuidPlaceholder (n : Nat) : List Char :=
  "00000000-0000-0000-0000-".toList ++
    List.replicate (12 - (Nat.toDigits 10 n).length) '0' ++ Nat.toDigits 10 n

/-- Does `pat` occur at the very start of `s`? -/
def startsWith : List Char → List Char → Bool
  | [], _ => true
  | _ :: _, [] => false
  | a :: as, b :: bs => a == b && startsWith as bs

/-- Fuel-indexed core of `replaceAll`: replace the non-overlapping
occurrences of `old`, left to right.  On a match of the nonempty `old`
at `c :: rest`, the scan continues after it, at
`(c :: rest).drop old.length = rest.drop (old.length - 1)`. -/
def replaceAllF (old new : List Char) : Nat → List Char → List Char
  | _, [] => []
  | 0, s => s
  | fuel + 1, c :: rest =>
    if startsWith old (c :: rest) then
      new ++ replaceAllF old new fuel (rest.drop (old.length - 1))
    else
      c :: replaceAllF old new fuel rest

/-- Models `strings.Replace(s, old, new, -1)`.  Go treats an empty `old`
specially (inserting `new` between runes); `replaceUUIDs` only ever
passes 36-character UUID strings as `old`, so that case is left as the
identity. -/
def replaceAll (s old new : List Char) : List Char :=
  if old = [] then s else replaceAllF old new s.length s

/-- The indexed loop of `replaceUUIDs`: for the id at (1-based) index
`k`, replace every occurrence of its canonical string by the placeholder
with sequence number `k`, then continue on the rewritten text. -/
def replaceUUIDsAux : List (List Char) → Nat → List Char → List Char
  | [], _, s => s
  | u :: us, k, s => replaceUUIDsAux us (k + 1) (replaceAll s u (uuidPlaceholder k))

/-- Models `replaceUUIDs`: find the distinct UUID values and substitute
the `k`-th one's canonical string (`id.String()`) by the `k`-th
placeholder, `k` starting at 1.  The only Go error path is a parse
failure, which cannot occur on a regex match. -/
def replaceUUIDs (str : List Char) : List Char :=
  replaceUUIDsAux (findUUIDs str) 1 str

/-! ## The timestamp patterns of `replaceTimes`

The RFC3339 pattern of the source is assembled from
`year = ([0-9]+)`, `month = (0[1-9]|1[012])`,
`day = (0[1-9]|[12][0-9]|3[01])`, a literal `[Tt]`,
`hour = ([01][0-9]|2[0-3])`, `minute = ([0-5][0-9])`,
`second = ([0-5][0-9]|60)`, `subSecond = (\.[0-9]+)?` and
`timeZoneOffset = (([Zz])|([\+|\-]([01][0-9]|2[0-3]):[0-5][0-9]))`
(note that the character class `[\+|\-]` contains the literal `|`).

A matcher at a fixed start position is a function from the remaining text
to the text left over after the match (`none` when no match starts here).
Although Go's engine backtracks, every choice point of these patterns is
forced, so a deterministic one-pass parser computes the same match:
* `[0-9]+` is greedy and must be followed by `-` (or, for `subSecond`,
  by the time-zone characters `Zz+|-`), none of which is a digit, so a
  shorter digit run can never be followed by the required character and
  the maximal run is the only candidate;
* every two-character alternation (`month`, `day`, `hour`, `minute`,
  `second`) has alternatives of equal length, so whichever matches
  consumes exactly two characters;
* in `timeZoneOffset` the alternatives start with disjoint characters
  (`Zz` versus `+|-`);
* `(\.[0-9]+)?` is greedy: it participates exactly when a `.` followed
  by at least one digit is present, and the following time zone cannot
  start with a digit, so dropping digits from it can never help.
-/

/-- A matcher positioned at the start of its input: `some r` means a
match was found consuming the input up to the leftover `r`. -/
abbrev TimeM := List Char → Option (List Char)

/-- Match one character satisfying `p`. -/
def chCl (p : Char → Bool) : TimeM := fun s =>
  match s with
  | [] => none
  | c :: rest => if p c then some rest else none

/-- Match `a` then `b`. -/
def seqM (a b : TimeM) : TimeM := fun s => (a s).bind b

/-- Match the literal character `c`. -/
def litCh (c : Char) : TimeM := chCl (fun x => x == c)

/-- Length of the leading run of decimal digits. -/
def countLeadingDigits : List Char → Nat
  | [] => 0
  | c :: rest => if isDigitCh c then countLeadingDigits rest + 1 else 0

/-- The `year` part `([0-9]+)`: the maximal (greedy) leading digit run,
failing when it is empty. -/
def yearM : TimeM := fun s =>
  let k := countLeadingDigits s
  if k = 0 then none else some (s.drop k)

/-- Match two characters jointly satisfying `p`.  All two-character
alternations of the source patterns are translated through this. -/
def twoCharM (p : Char → Char → Bool) : TimeM := fun s =>
  match s with
  | c1 :: c2 :: rest => if p c1 c2 then some rest else none
  | _ => none

/-- The `month` alternation `(0[1-9]|1[012])`. -/
def monthChars (c1 c2 : Char) : Bool :=
  (c1 == '0' && 49 ≤ c2.toNat && c2.toNat ≤ 57) ||
    (c1 == '1' && (c2 == '0' || c2 == '1' || c2 == '2'))

/-- The `day` alternation `(0[1-9]|[12][0-9]|3[01])`. -/
def dayChars (c1 c2 : Char) : Bool :=
  (c1 == '0' && 49 ≤ c2.toNat && c2.toNat ≤ 57) ||
    ((c1 == '1' || c1 == '2') && isDigitCh c2) ||
    (c1 == '3' && (c2 == '0' || c2 == '1'))

/-- The `hour` alternation `([01][0-9]|2[0-3])`. -/
def hourChars (c1 c2 : Char) : Bool :=
  ((c1 == '0' || c1 == '1') && isDigitCh c2) ||
    (c1 == '2' && 48 ≤ c2.toNat && c2.toNat ≤ 51)

/-- The `minute` class pair `[0-5][0-9]`. -/
def minuteChars (c1 c2 : Char) : Bool :=
  48 ≤ c1.toNat && c1.toNat ≤ 53 && isDigitCh c2

/-- The `second` alternation `([0-5][0-9]|60)`, allowing a leap second. -/
def secondChars (c1 c2 : Char) : Bool :=
  (48 ≤ c1.toNat && c1.toNat ≤ 53 && isDigitCh c2) || (c1 == '6' && c2 == '0')

/-- The optional `subSecond` part `(\.[0-9]+)?`: greedy, so it consumes
a `.` and the following maximal digit run when that run is nonempty, and
otherwise consumes nothing. -/
def subSecondM : TimeM := fun s =>
  match s with
  | [] => some s
  | c :: rest =>
    if c == '.' then
      let k := countLeadingDigits rest
      if k = 0 then some s else some (rest.drop k)
    else some s

/-- The `timeZoneOffset` part `(([Zz])|([\+|\-]([01][0-9]|2[0-3]):[0-5][0-9]))`:
a `Z` or `z`, or one of the three class characters `+`, `|`, `-` followed
by hours, `:` and minutes. -/
def tzM : TimeM := fun s =>
  match s with
  | [] => none
  | c :: rest =>
    if c == 'Z' || c == 'z' then some rest
    else if c == '+' || c == '|' || c == '-' then
      (seqM (twoCharM hourChars) (seqM (litCh ':') (twoCharM minuteChars))) rest
    else none

/-- The assembled RFC3339 matcher:
`year - month - day [Tt] hour : minute : second subSecond timeZoneOffset`. -/
def rfc3339M : TimeM :=
  seqM yearM (seqM (litCh '-') (seqM (twoCharM monthChars)
    (seqM (litCh '-') (seqM (twoCharM dayChars)
      (seqM (chCl (fun c => c == 'T' || c == 't')) (seqM (twoCharM hourChars)
        (seqM (litCh ':') (seqM (twoCharM minuteChars)
          (seqM (litCh ':') (seqM (twoCharM secondChars)
            (seqM subSecondM tzM)))))))))))

/-- Length consumed by a matcher from the start of `s`, if it matches. -/
def matchLen (m : TimeM) (s : List Char) : Option Nat :=
  (m s).map (fun r => s.length - r.length)

/-- RFC3339 match length at the start of `s`. -/
def rfc3339Len (s : List Char) : Option Nat := matchLen rfc3339M s

/-! The RFC7232 last-modified pattern of the source is
`(Mon|Tue|Wed|Thu|Fri|Sat|Sun), [0-9]{2} (Jan|...|Dec) [0-9]{4}
([01][0-9]|2[0-3]):([0-5][0-9]):([0-5][0-9]|60) (GMT|CEST|UTC|IST|[A-Z]+)`.
All day and month alternatives are distinct three-letter literals, so the
alternation consumes exactly three characters when any alternative
matches.  The final `TZ` group ends the pattern, so Perl-style ordered
alternation takes the first alternative that matches, with no longest-
match preference, and the `[A-Z]+` fallback is greedy. -/

/-- Uppercase letter `[A-Z]`. -/
def isUpperCh (c : Char) : Bool := 65 ≤ c.toNat && c.toNat ≤ 90

/-- Length of the leading run of uppercase letters. -/
def countLeadingUppers : List Char → Nat
  | [] => 0
  | c :: rest => if isUpperCh c then countLeadingUppers rest + 1 else 0

/-- The day-name alternation `(Mon|Tue|Wed|Thu|Fri|Sat|Sun)`. -/
def dayNameM : TimeM := fun s =>
  if startsWith "Mon".toList s || startsWith "Tue".toList s ||
      startsWith "Wed".toList s || startsWith "Thu".toList s ||
      startsWith "Fri".toList s || startsWith "Sat".toList s ||
      startsWith "Sun".toList s then
    some (s.drop 3)
  else none

/-- The month-name alternation `(Jan|Feb|Mar|Apr|May|Jun|Jul|Aug|Sep|Oct|Nov|Dec)`. -/
def monthNameM : TimeM := fun s =>
  if startsWith "Jan".toList s || startsWith "Feb".toList s ||
      startsWith "Mar".toList s || startsWith "Apr".toList s ||
      startsWith "May".toList s || startsWith "Jun".toList s ||
      startsWith "Jul".toList s || startsWith "Aug".toList s ||
      startsWith "Sep".toList s || startsWith "Oct".toList s ||
      startsWith "Nov".toList s || startsWith "Dec".toList s then
    some (s.drop 3)
  else none

/-- The trailing `(GMT|CEST|UTC|IST|[A-Z]+)` group: ordered alternation,
first alternative wins; the `[A-Z]+` fallback takes the maximal
uppercase run. -/
def tzNameM : TimeM := fun s =>
  if startsWith "GMT".toList s then some (s.drop 3)
  else if startsWith "CEST".toList s then some (s.drop 4)
  else if startsWith "UTC".toList s then some (s.drop 3)
  else if startsWith "IST".toList s then some (s.drop 3)
  else
    let k := countLeadingUppers s
    if k = 0 then none else some (s.drop k)

/-- Two decimal digits `[0-9]{2}`. -/
def digit2M : TimeM := seqM (chCl isDigitCh) (chCl isDigitCh)

/-- The assembled RFC7232 last-modified matcher. -/
def rfc7232M : TimeM :=
  seqM dayNameM (seqM (litCh ',') (seqM (litCh ' ')
    (seqM digit2M (seqM (litCh ' ') (seqM monthNameM (seqM (litCh ' ')
      (seqM digit2M (seqM digit2M (seqM (litCh ' ')
        (seqM (twoCharM hourChars) (seqM (litCh ':') (seqM (twoCharM minuteChars)
          (seqM (litCh ':') (seqM (twoCharM secondChars)
            (seqM (litCh ' ') tzNameM)))))))))))))))

/-- RFC7232 match length at the start of `s`. -/
def rfc7232Len (s : List Char) : Option Nat := matchLen rfc7232M s

/-- The RFC3339 replacement literal of `replaceTimes`. -/
def rfc3339Replacement : List Char := "0001-01-01T00:00:00Z".toList

/-- The RFC7232 replacement literal of `replaceTimes`. -/
def rfc7232Replacement : List Char := "Mon, 01 Jan 0001 00:00:00 GMT".toList

/-- Fuel-indexed core of `replaceAllMatches`.  Both patterns require at
least one character, so a reported match length is at least 1 and the
scan resumes after the match, at `rest.drop (n - 1) = (c :: rest).drop n`. -/
def replaceMatchesF (f : List Char → Option Nat) (new : List Char) :
    Nat → List Char → List Char
  | _, [] => []
  | 0, s => s
  | fuel + 1, c :: rest =>
    match f (c :: rest) with
    | some n => new ++ replaceMatchesF f new fuel (rest.drop (n - 1))
    | none => c :: replaceMatchesF f new fuel rest

/-- Models `re.ReplaceAllString(s, new)` for a matcher `f` implementing
`re` positioned at a fixed start: scan left to right, replace each
leftmost non-overlapping match, resume after it. -/
def replaceAllMatches (f : List Char → Option Nat) (new : List Char)
    (s : List Char) : List Char :=
  replaceMatchesF f new s.length s

/-- Models `replaceTimes`: the RFC3339 substitution pass runs first over
the whole text, then the RFC7232 pass runs over its result.  The only Go
error paths are regex-compilation failures of the two constant patterns,
which never occur, so the function is total. -/
def replaceTimes (str : List Char) : List Char :=
  replaceAllMatches rfc7232Len rfc7232Replacement
    (replaceAllMatches rfc3339Len rfc3339Replacement str)

example :
    replaceTimes "at 2017-04-21T04:38:26.777609Z done".toList =
      "at 0001-01-01T00:00:00Z done".toList := by decide

example :
    replaceTimes "a: Thu, 15 Mar 2018 09:23:37 GMT,".toList =
      "a: Mon, 01 Jan 0001 00:00:00 GMT,".toList := by decide

example :
    replaceTimes "a: Mon, 24 Apr 2018 02:11:00 BST,".toList =
      "a: Mon, 01 Jan 0001 00:00:00 GMT,".toList := by decide

/-! ## The comparator `testableCompareWithGolden`

The comparator is modelled over an explicit filesystem value.  The
serialization switch at the top of the Go function (JSON marshalling,
`[]byte`, `string`, stringer) is a deterministic pure function of the
input object and the options; both runs of a round trip receive the same
object, so the comparator is modelled on the already-serialized text
`actual` (the `string` case of the switch).  `filepath.Abs` is
deterministic for a fixed working directory and is applied to the same
argument on every run, so paths are used as given.  `os.MkdirAll` and
`ioutil.WriteFile` are modelled as always succeeding; their Go error
paths only propagate filesystem faults. -/

/-- Models `CompareOptions`.  `MarshalInputAsJSON` only selects how the
input object is serialized, which happens before the modelled entry
point; it is carried for completeness. -/
structure CompareOptions where
  UUIDAgnostic : Bool
  DateTimeAgnostic : Bool
  MarshalInputAsJSON : Bool
deriving DecidableEq

/-- A file path, as text. -/
abbrev FPath := List Char

/-- A filesystem: files with contents, plus the set of directories
created so far (recorded so that theorems can speak about directory
creation). -/
structure FS where
  files : List (FPath × List Char)
  dirs : List FPath
deriving DecidableEq

/-- The empty filesystem. -/
def emptyFS : FS := ⟨[], []⟩

/-- Contents of the file at `p`, if present. -/
def lookupFile (fs : FS) (p : FPath) : Option (List Char) :=
  fs.files.lookup p

/-- Models `ioutil.WriteFile`: create or overwrite. -/
def writeFile (fs : FS) (p : FPath) (c : List Char) : FS :=
  { fs with files := (p, c) :: fs.files }

/-- Models `os.MkdirAll` on one directory path. -/
def mkdirAll (fs : FS) (d : FPath) : FS :=
  { fs with dirs := if d ∈ fs.dirs then fs.dirs else d :: fs.dirs }

/-- Models `filepath.Dir` for clean relative paths: everything before
the last `/`, or `.` when there is none. -/
def parentDir (p : FPath) : FPath :=
  if '/' ∈ p then (p.reverse.dropWhile (fun c => ¬c = '/')).drop 1 |>.reverse
  else ['.']

/-- The underlying I/O error of a failed read, as `os.ReadFile` reports
it (`*os.PathError` satisfying `os.IsNotExist`). -/
inductive IOErr where
  | notExist (path : FPath)
deriving DecidableEq

/-- The errors `testableCompareWithGolden` can return on the modelled
paths: a failed read of the golden file (wrapping the underlying I/O
error), or a mismatch of the two normalized texts. -/
inductive CompareError where
  | readGolden (path : FPath) (underlying : IOErr)
  | mismatch (path : FPath) (expectedStr actualStr : List Char)
deriving DecidableEq

/-- Models `testableCompareWithGolden(update, goldenFile, actualObj,
opts)` acting on filesystem `fs`, with `actual` the serialized form of
`actualObj`.  Returns the error (if any) and the resulting filesystem. -/
def testableCompareWithGolden (update : Bool) (goldenFile : FPath)
    (actual : List Char) (opts : CompareOptions) (fs : FS) :
    Except CompareError Unit × FS :=
  let absPath := goldenFile
  let fs1 :=
    if update then
      let fs' := mkdirAll fs (parentDir absPath)
      let tmp := actual
      let tmp := if opts.UUIDAgnostic then replaceUUIDs tmp else tmp
      let tmp := if opts.DateTimeAgnostic then replaceTimes tmp else tmp
      writeFile fs' absPath tmp
    else fs
  match lookupFile fs1 absPath with
  | none => (Except.error (CompareError.readGolden absPath (IOErr.notExist absPath)), fs1)
  | some expected =>
    let expectedStr := expected
    let actualStr := actual
    let expectedStr := if opts.UUIDAgnostic then replaceUUIDs expectedStr else expectedStr
    let actualStr := if opts.UUIDAgnostic then replaceUUIDs actualStr else actualStr
    let expectedStr := if opts.DateTimeAgnostic then replaceTimes expectedStr else expectedStr
    let actualStr := if opts.DateTimeAgnostic then replaceTimes actualStr else actualStr
    if expectedStr = actualStr then (Except.ok (), fs1)
    else (Except.error (CompareError.mismatch absPath expectedStr actualStr), fs1)

/-- The normalization pipeline the comparator applies to each side:
`replaceUUIDs` if requested, then `replaceTimes` if requested. -/
def normalizeOpts (opts : CompareOptions) (t : List Char) : List Char :=
  let t1 := if opts.UUIDAgnostic then replaceUUIDs t else t
  if opts.DateTimeAgnostic then replaceTimes t1 else t1

/-- Models Go's `%q` rendering of a path: the path between double
quotes.  (`%q` additionally escapes quotes, backslashes and
non-printable characters; golden-file paths contain none of these.) -/
def goQuote (p : FPath) : List Char := '"' :: p ++ ['"']

/-- The message of each comparator error, parameterized by the diff
renderer `render`, which models
`diffmatchpatch.New().DiffPrettyText(dmp.DiffMain(expected, actual, false))`
from the third-party diff library.  The mismatch message is the
`fmt.Errorf` format string of the source with its verbs substituted. -/
def errorMessage (render : List Char → List Char → List Char) :
    CompareError → List Char
  | CompareError.readGolden p _ =>
      "failed to read golden file ".toList ++ goQuote p
  | CompareError.mismatch p e a =>
      "mismatch of actual output and golden-file ".toList ++ goQuote p ++
        ":\n ".toList ++ render e a ++ " \n".toList

example : uuidPlaceholder 12 = "00000000-0000-0000-0000-000000000012".toList := by decide

/-! ## Shared lemmas -/

/-- Does the matcher `f` match at some position of `s`? -/
def scanHasMatch (f : List Char → Option Nat) : List Char → Bool
  | [] => false
  | c :: rest => (f (c :: rest)).isSome || scanHasMatch f rest

/-- A scanning replacement leaves a text without matches unchanged. -/
lemma replaceMatchesF_of_no_match (f : List Char → Option Nat) (new : List Char) :
    ∀ fuel s, scanHasMatch f s = false → replaceMatchesF f new fuel s = s := by
  intro fuel
  induction fuel with
  | zero => intro s _; cases s <;> rfl
  | succ n ih =>
    intro s h
    cases s with
    | nil => rfl
    | cons c rest =>
      simp only [scanHasMatch, Bool.or_eq_false_iff] at h
      rw [replaceMatchesF]
      cases hf : f (c :: rest) with
      | none => rw [ih rest h.2]
      | some m => rw [hf] at h; simp at h

/-- A scanning replacement on a text without matches is the identity. -/
lemma replaceAllMatches_of_no_match (f : List Char → Option Nat) (new s : List Char)
    (h : scanHasMatch f s = false) : replaceAllMatches f new s = s :=
  replaceMatchesF_of_no_match f new s.length s h

/-- A text that is in its entirety a single match collapses to the
replacement, whatever the text was. -/
lemma replaceAllMatches_of_full (f : List Char → Option Nat) (new : List Char)
    (c : Char) (rest : List Char) (h : f (c :: rest) = some (c :: rest).length) :
    replaceAllMatches f new (c :: rest) = new := by
  unfold replaceAllMatches
  simp only [List.length_cons]
  rw [replaceMatchesF, h]
  simp [List.drop_length, replaceMatchesF]

/-- Reading back a file just written returns what was written. -/
lemma lookupFile_writeFile (fs : FS) (p : FPath) (c : List Char) :
    lookupFile (writeFile fs p c) p = some c := by
  simp [lookupFile, writeFile, List.lookup]

/-- Is a comparator result a pass? -/
def resultIsOk : Except CompareError Unit → Bool
  | Except.ok _ => true
  | Except.error _ => false

/-- Evaluation of a non-update comparison against an existing golden
file: both sides are normalized and compared. -/
lemma compare_false_eval (fs : FS) (p : FPath) (a c : List Char)
    (opts : CompareOptions) (h : lookupFile fs p = some c) :
    testableCompareWithGolden false p a opts fs =
      (if normalizeOpts opts c = normalizeOpts opts a then Except.ok ()
       else Except.error
         (CompareError.mismatch p (normalizeOpts opts c) (normalizeOpts opts a)), fs) := by
  by_cases hc : normalizeOpts opts c = normalizeOpts opts a <;>
    simp_all [testableCompareWithGolden, normalizeOpts]

/-- Evaluation of an update-mode comparison: the normalized text is
written, read back, and both sides are normalized again and compared. -/
lemma compare_true_eval (fs : FS) (p : FPath) (a : List Char)
    (opts : CompareOptions) :
    testableCompareWithGolden true p a opts fs =
      (if normalizeOpts opts (normalizeOpts opts a) = normalizeOpts opts a
       then Except.ok ()
       else Except.error
         (CompareError.mismatch p (normalizeOpts opts (normalizeOpts opts a))
           (normalizeOpts opts a)),
       writeFile (mkdirAll fs (parentDir p)) p (normalizeOpts opts a)) := by
  by_cases hc :
      normalizeOpts opts (normalizeOpts opts a) = normalizeOpts opts a <;>
    simp_all [testableCompareWithGolden, normalizeOpts, lookupFile_writeFile]

/-- Claim C2: for every input text, `replaceTimes` first replaces every
span matching the RFC3339 pattern with the single literal
`0001-01-01T00:00:00Z`, then, over the result of that pass, replaces
every span matching the RFC7232 last-modified pattern with the single
literal `Mon, 01 Jan 0001 00:00:00 GMT`; a matched span collapses to the
corresponding constant regardless of its original value (no per-value
identity tracking). -/
theorem replace_times_two_pass :
    (∀ s, replaceTimes s =
        replaceAllMatches rfc7232Len rfc7232Replacement
          (replaceAllMatches rfc3339Len rfc3339Replacement s)) ∧
    (∀ w, rfc3339Len w = some w.length →
        replaceAllMatches rfc3339Len rfc3339Replacement w = rfc3339Replacement) ∧
    (∀ w, rfc7232Len w = some w.length →
        replaceAllMatches rfc7232Len rfc7232Replacement w = rfc7232Replacement) := by
  refine ⟨fun s => rfl, fun w h => ?_, fun w h => ?_⟩
  · cases w with
    | nil => exact absurd h (by decide)
    | cons c rest => exact replaceAllMatches_of_full _ _ c rest h
  · cases w with
    | nil => exact absurd h (by decide)
    | cons c rest => exact replaceAllMatches_of_full _ _ c rest h

/-- Witness for C2 at two concrete timestamps, one per pass. -/
theorem replace_times_two_pass_witness :
    (rfc3339Len "2017-04-21T04:38:26.777609Z".toList =
        some "2017-04-21T04:38:26.777609Z".toList.length ∧
      replaceAllMatches rfc3339Len rfc3339Replacement
        "2017-04-21T04:38:26.777609Z".toList = rfc3339Replacement) ∧
    (rfc7232Len "Thu, 15 Mar 2018 09:23:37 GMT".toList =
        some "Thu, 15 Mar 2018 09:23:37 GMT".toList.length ∧
      replaceAllMatches rfc7232Len rfc7232Replacement
        "Thu, 15 Mar 2018 09:23:37 GMT".toList = rfc7232Replacement) :=
  ⟨⟨by decide, replace_times_two_pass.2.1 _ (by decide)⟩,
   ⟨by decide, replace_times_two_pass.2.2 _ (by decide)⟩⟩

/-- Counterexample to claim C5: `replaceUUIDs` is not idempotent.  In
this text the single found UUID is followed by `-0000-1000-8000-…`;
replacing it by the all-zero placeholder creates, by juxtaposition, a
fresh UUID-shaped span straddling the placeholder's tail, which a second
pass rewrites again. -/
theorem replace_uuids_not_idempotent_cex :
    replaceUUIDs (replaceUUIDs
        "d7a282f6-1c10-459e-bb44-55a1a6d48bdd-0000-1000-8000-000000000000".toList) ≠
      replaceUUIDs
        "d7a282f6-1c10-459e-bb44-55a1a6d48bdd-0000-1000-8000-000000000000".toList := by
  decide

/-- Claim C5 (amended): each normalization pass is idempotent on every
text whose normalized form contains no further pattern match — if
`findUUIDs (replaceUUIDs s) = []` then a second `replaceUUIDs` changes
nothing, and if neither timestamp pattern matches anywhere in
`replaceTimes s` then a second `replaceTimes` changes nothing.  In
general idempotence fails: replacing a UUID can create a new UUID-shaped
span by juxtaposition of the placeholder with adjacent text, and the
second pass rewrites it. -/
theorem normalization_idempotent_conditional :
    ∀ s : List Char,
      (findUUIDs (replaceUUIDs s) = [] →
        replaceUUIDs (replaceUUIDs s) = replaceUUIDs s) ∧
      (scanHasMatch rfc3339Len (replaceTimes s) = false →
        scanHasMatch rfc7232Len (replaceTimes s) = false →
        replaceTimes (replaceTimes s) = replaceTimes s) := by
  intro s
  constructor
  · intro h
    show replaceUUIDsAux (findUUIDs (replaceUUIDs s)) 1 (replaceUUIDs s) =
      replaceUUIDs s
    rw [h]
    rfl
  · intro h1 h2
    show replaceAllMatches rfc7232Len rfc7232Replacement
        (replaceAllMatches rfc3339Len rfc3339Replacement (replaceTimes s)) =
      replaceTimes s
    rw [replaceAllMatches_of_no_match _ _ _ h1,
      replaceAllMatches_of_no_match _ _ _ h2]

/-- Witness for the amended C5 on a short text with no volatile values. -/
theorem normalization_idempotent_conditional_witness :
    (findUUIDs (replaceUUIDs "hi".toList) = [] ∧
      replaceUUIDs (replaceUUIDs "hi".toList) = replaceUUIDs "hi".toList) ∧
    (scanHasMatch rfc3339Len (replaceTimes "hi".toList) = false ∧
      scanHasMatch rfc7232Len (replaceTimes "hi".toList) = false ∧
      replaceTimes (replaceTimes "hi".toList) = replaceTimes "hi".toList) :=
  ⟨⟨by decide, (normalization_idempotent_conditional _).1 (by decide)⟩,
   ⟨by decide, by decide,
    (normalization_idempotent_conditional _).2 (by decide) (by decide)⟩⟩

/-- Counterexample to claim C6: the round trip fails on a text whose
normalization is not idempotent.  Update mode writes the normalized
text, but re-reading it and normalizing it again yields a different
string than the once-normalized actual text, so the follow-up
non-update comparison fails. -/
theorem golden_roundtrip_cex :
    resultIsOk
      (testableCompareWithGolden false "g".toList
        "d7a282f6-1c10-459e-bb44-55a1a6d48bdd-0000-1000-8000-000000000000".toList
        ⟨true, false, false⟩
        (testableCompareWithGolden true "g".toList
          "d7a282f6-1c10-459e-bb44-55a1a6d48bdd-0000-1000-8000-000000000000".toList
          ⟨true, false, false⟩ emptyFS).2).1 = false := by
  decide

/-- Claim C6 (amended): the round trip — comparison in update mode, then
comparison in non-update mode against the same unchanged input and the
reference just written — passes for every serialized input text on which
the enabled normalization pipeline is idempotent.  (The update-mode run
itself also passes then.)  Inputs violating that idempotence, which
exist, fail both runs. -/
theorem golden_roundtrip_conditional (fs : FS) (p : FPath) (a : List Char)
    (opts : CompareOptions)
    (h : normalizeOpts opts (normalizeOpts opts a) = normalizeOpts opts a) :
    (testableCompareWithGolden true p a opts fs).1 = Except.ok () ∧
    (testableCompareWithGolden false p a opts
        (testableCompareWithGolden true p a opts fs).2).1 = Except.ok () := by
  constructor
  · rw [compare_true_eval, if_pos h]
  · rw [compare_true_eval]
    rw [compare_false_eval _ _ _ (normalizeOpts opts a) _ (lookupFile_writeFile _ _ _)]
    simp [h]

/-- Witness for the amended C6 with normalization disabled. -/
theorem golden_roundtrip_conditional_witness :
    (normalizeOpts ⟨false, false, false⟩
        (normalizeOpts ⟨false, false, false⟩ "x".toList) =
      normalizeOpts ⟨false, false, false⟩ "x".toList) ∧
    (testableCompareWithGolden true "g".toList "x".toList
        ⟨false, false, false⟩ emptyFS).1 = Except.ok () ∧
    (testableCompareWithGolden false "g".toList "x".toList ⟨false, false, false⟩
        (testableCompareWithGolden true "g".toList "x".toList
          ⟨false, false, false⟩ emptyFS).2).1 = Except.ok () :=
  ⟨by decide,
   (golden_roundtrip_conditional emptyFS _ _ _ (by decide)).1,
   (golden_roundtrip_conditional emptyFS _ _ _ (by decide)).2⟩

/-- Claim C7: a comparison against an existing golden file fails exactly
when the two normalized texts differ — equal texts yield a pass, unequal
texts a mismatch error carrying both normalized texts — and the mismatch
message is `mismatch of actual output and golden-file <path>:` followed
by the rendered diff of the two normalized texts. -/
theorem compare_mismatch_iff (fs : FS) (p : FPath) (a c : List Char)
    (opts : CompareOptions) (h : lookupFile fs p = some c) :
    ((testableCompareWithGolden false p a opts fs).1 =
      if normalizeOpts opts c = normalizeOpts opts a then Except.ok ()
      else Except.error
        (CompareError.mismatch p (normalizeOpts opts c) (normalizeOpts opts a))) ∧
    (∀ render e act,
      errorMessage render (CompareError.mismatch p e act) =
        "mismatch of actual output and golden-file ".toList ++ goQuote p ++
          ":\n ".toList ++ render e act ++ " \n".toList) := by
  refine ⟨?_, fun render e act => rfl⟩
  rw [compare_false_eval fs p a c opts h]

/-- Witness for C7: a passing and a failing concrete comparison. -/
theorem compare_mismatch_iff_witness :
    ((testableCompareWithGolden false "g".toList "x".toList ⟨false, false, false⟩
        ⟨[("g".toList, "x".toList)], []⟩).1 = Except.ok ()) ∧
    ((testableCompareWithGolden false "g".toList "y".toList ⟨false, false, false⟩
        ⟨[("g".toList, "x".toList)], []⟩).1 =
      Except.error (CompareError.mismatch "g".toList "x".toList "y".toList)) := by
  constructor
  · have h := (compare_mismatch_iff ⟨[("g".toList, "x".toList)], []⟩ "g".toList
      "x".toList "x".toList ⟨false, false, false⟩ (by decide)).1
    rw [h, if_pos (by decide)]
  · have h := (compare_mismatch_iff ⟨[("g".toList, "x".toList)], []⟩ "g".toList
      "y".toList "x".toList ⟨false, false, false⟩ (by decide)).1
    rw [h, if_neg (by decide)]
    rfl

/-- Claim C9: when the golden file is absent and update mode is off, the
comparison fails with an error wrapping the underlying not-found I/O
error, and the filesystem is returned unchanged — no file or directory
is created. -/
theorem compare_missing_file_untouched (fs : FS) (p : FPath) (a : List Char)
    (opts : CompareOptions) (h : lookupFile fs p = none) :
    testableCompareWithGolden false p a opts fs =
      (Except.error (CompareError.readGolden p (IOErr.notExist p)), fs) := by
  simp [testableCompareWithGolden, h]

/-- Witness for C9 on the empty filesystem. -/
theorem compare_missing_file_untouched_witness :
    testableCompareWithGolden false "g".toList "x".toList
        ⟨true, true, false⟩ emptyFS =
      (Except.error (CompareError.readGolden "g".toList
        (IOErr.notExist "g".toList)), emptyFS) :=
  compare_missing_file_untouched emptyFS _ _ _ (by decide)

/-- Claim C3 is right and the code is wrong: on a UUID written with
uppercase hex digits the finder matches (and numbers) it, but
`replaceUUIDs` substitutes only the parsed value's lower-case canonical
rendering `id.String()`, which does not occur in the text, so the found
occurrence survives normalization unchanged — contradicting the
function's own documentation (`finds all UUIDs in the given string and
replaces them`). -/
theorem uppercase_uuid_found_not_replaced :
    findUUIDs "ABCDEF01-1234-1234-8234-123456789ABC".toList =
      ["abcdef01-1234-1234-8234-123456789abc".toList] ∧
    replaceUUIDs "ABCDEF01-1234-1234-8234-123456789ABC".toList =
      "ABCDEF01-1234-1234-8234-123456789ABC".toList := by
  decide

/-- Counterexample to claim C4: the same UUID written in uppercase and
in lowercase gives two textually different matches, yet `findUUIDs`
collapses them into a single entry — they do not receive different
placeholder indices. -/
theorem uuid_textual_identity_cex :
    ((findAllUUIDMatches 0
        "ABCDEF01-1234-1234-8234-123456789ABC abcdef01-1234-1234-8234-123456789abc".toList).map
          Prod.snd =
      ["ABCDEF01-1234-1234-8234-123456789ABC".toList,
        "abcdef01-1234-1234-8234-123456789abc".toList]) ∧
    "ABCDEF01-1234-1234-8234-123456789ABC".toList ≠
      "abcdef01-1234-1234-8234-123456789abc".toList ∧
    findUUIDs
        "ABCDEF01-1234-1234-8234-123456789ABC abcdef01-1234-1234-8234-123456789abc".toList =
      ["abcdef01-1234-1234-8234-123456789abc".toList] := by
  decide

/-- Membership in the de-duplicated list: exactly the elements of the
input not already seen. -/
lemma mem_uniqFirstAux (l : List (List Char)) :
    ∀ (seen : List (List Char)) (x : List Char),
      x ∈ uniqFirstAux seen l ↔ (x ∈ l ∧ x ∉ seen) := by
  induction l with
  | nil => intro seen x; simp [uniqFirstAux]
  | cons c t ih =>
    intro seen x
    by_cases hc : c ∈ seen
    · rw [show uniqFirstAux seen (c :: t) = uniqFirstAux seen t from by
        simp [uniqFirstAux, hc]]
      rw [ih]
      constructor
      · rintro ⟨hx, hs⟩
        exact ⟨List.mem_cons_of_mem _ hx, hs⟩
      · rintro ⟨hx, hs⟩
        rcases List.mem_cons.mp hx with h | h
        · exact absurd (h ▸ hc) hs
        · exact ⟨h, hs⟩
    · rw [show uniqFirstAux seen (c :: t) = c :: uniqFirstAux (c :: seen) t from by
        simp [uniqFirstAux, hc]]
      constructor
      · intro hx
        rcases List.mem_cons.mp hx with h | h
        · subst h
          exact ⟨List.mem_cons_self _ _, hc⟩
        · have hmem := (ih (c :: seen) x).mp h
          exact ⟨List.mem_cons_of_mem _ hmem.1,
            fun hs => hmem.2 (List.mem_cons_of_mem _ hs)⟩
      · rintro ⟨hx, hs⟩
        by_cases hxc : x = c
        · subst hxc
          exact List.mem_cons_self _ _
        · rcases List.mem_cons.mp hx with h | h
          · exact absurd h hxc
          · refine List.mem_cons_of_mem _ ((ih (c :: seen) x).mpr ⟨h, ?_⟩)
            intro hmem
            rcases List.mem_cons.mp hmem with h2 | h2
            · exact hxc h2
            · exact hs h2

/-- The de-duplicated list has no duplicates. -/
lemma nodup_uniqFirstAux (l : List (List Char)) :
    ∀ seen : List (List Char), (uniqFirstAux seen l).Nodup := by
  induction l with
  | nil => intro seen; simp [uniqFirstAux]
  | cons c t ih =>
    intro seen
    by_cases hc : c ∈ seen
    · rw [show uniqFirstAux seen (c :: t) = uniqFirstAux seen t from by
        simp [uniqFirstAux, hc]]
      exact ih seen
    · rw [show uniqFirstAux seen (c :: t) = c :: uniqFirstAux (c :: seen) t from by
        simp [uniqFirstAux, hc]]
      refine List.nodup_cons.mpr ⟨fun hmem => ?_, ih _⟩
      exact ((mem_uniqFirstAux t _ c).mp hmem).2 (List.mem_cons_self _ _)

/-- Claim C4 (amended): a volatile UUID's identity is its parsed value,
i.e. the canonical lower-case form of its text: each match contributes
its value, entries of `findUUIDs` are pairwise distinct (so UUIDs whose
canonical forms differ receive different placeholder indices, in
first-appearance order), and matches differing only in hex case
collapse to one entry. -/
theorem uuid_value_identity (s : List Char) :
    (findUUIDs s).Nodup ∧
    (∀ pm, pm ∈ findAllUUIDMatches 0 s → uuidValue pm.2 ∈ findUUIDs s) ∧
    (∀ u, u ∈ findUUIDs s →
      ∃ pm, pm ∈ findAllUUIDMatches 0 s ∧ u = uuidValue pm.2) := by
  refine ⟨nodup_uniqFirstAux _ _, fun pm hpm => ?_, fun u hu => ?_⟩
  · exact (mem_uniqFirstAux _ _ _).mpr
      ⟨List.mem_map_of_mem _ hpm, List.not_mem_nil _⟩
  · have hmem := (mem_uniqFirstAux _ _ _).mp hu
    rcases List.mem_map.mp hmem.1 with ⟨pm, hpm, heq⟩
    exact ⟨pm, hpm, heq.symm⟩

/-- Witness for the amended C4 on a concrete text. -/
theorem uuid_value_identity_witness :
    (findUUIDs "x d7a282f6-1c10-459e-bb44-55a1a6d48bdd".toList).Nodup ∧
    uuidValue "d7a282f6-1c10-459e-bb44-55a1a6d48bdd".toList ∈
      findUUIDs "x d7a282f6-1c10-459e-bb44-55a1a6d48bdd".toList :=
  ⟨(uuid_value_identity _).1,
   (uuid_value_identity _).2.1 (2, "d7a282f6-1c10-459e-bb44-55a1a6d48bdd".toList)
     (by decide)⟩

/-- Offset of the first match whose parsed value is `u`. -/
def firstUUIDOffset (s u : List Char) : Option Nat :=
  ((findAllUUIDMatches 0 s).find? (fun pm => uuidValue pm.2 == u)).map Prod.fst

/-- The 1-based sequence number `replaceUUIDs` assigns to the value `u`:
its position in the de-duplicated first-appearance list, plus one. -/
def seqNum (s u : List Char) : Nat :=
  (findUUIDs s).findIdx (fun x => x == u) + 1

/-- The substitution list of `replaceUUIDs`: the `k`-th value paired
with the placeholder carrying sequence number `k`, `k` starting at 1. -/
def assignPairs : List (List Char) → Nat → List (List Char × List Char)
  | [], _ => []
  | u :: us, k => (u, uuidPlaceholder k) :: assignPairs us (k + 1)

/-- The `replaceUUIDs` loop is the left fold of its substitution list. -/
lemma replaceUUIDsAux_eq_foldl :
    ∀ (ids : List (List Char)) (k : Nat) (s : List Char),
      replaceUUIDsAux ids k s =
        (assignPairs ids k).foldl (fun acc pr => replaceAll acc pr.1 pr.2) s := by
  intro ids
  induction ids with
  | nil => intro k s; rfl
  | cons u us ih => intro k s; simp [replaceUUIDsAux, assignPairs, ih]

/-- Every match offset is at least the scan's running position. -/
lemma findAllUUIDMatchesF_pos_le :
    ∀ (fuel pos : Nat) (s : List Char) pm,
      pm ∈ findAllUUIDMatchesF fuel pos s → pos ≤ pm.1 := by
  intro fuel
  induction fuel with
  | zero =>
    intro pos s pm h
    cases s <;> simp [findAllUUIDMatchesF] at h
  | succ k ih =>
    intro pos s pm h
    cases s with
    | nil => simp [findAllUUIDMatchesF] at h
    | cons c rest =>
      rw [findAllUUIDMatchesF] at h
      by_cases hm : matchPattern uuidPattern (c :: rest) = true
      · rw [if_pos hm] at h
        rcases List.mem_cons.mp h with rfl | h
        · exact Nat.le_refl _
        · have := ih _ _ _ h
          omega
      · rw [if_neg hm] at h
        have := ih _ _ _ h
        omega

/-- Match offsets are strictly increasing along the scan. -/
lemma findAllUUIDMatchesF_pairwise :
    ∀ (fuel pos : Nat) (s : List Char),
      List.Pairwise (fun a b => a.1 < b.1) (findAllUUIDMatchesF fuel pos s) := by
  intro fuel
  induction fuel with
  | zero => intro pos s; cases s <;> exact List.Pairwise.nil
  | succ k ih =>
    intro pos s
    cases s with
    | nil => exact List.Pairwise.nil
    | cons c rest =>
      rw [findAllUUIDMatchesF]
      by_cases hm : matchPattern uuidPattern (c :: rest) = true
      · rw [if_pos hm]
        refine List.Pairwise.cons (fun b hb => ?_) (ih _ _)
        have := findAllUUIDMatchesF_pos_le _ _ _ _ hb
        omega
      · rw [if_neg hm]
        exact ih _ _

/-- In a list with strictly increasing first components, the element
`find?` returns for one predicate precedes the one it returns for
another exactly as their first components are ordered. -/
lemma find_idx_lt {β : Type} (P Q : Nat × β → Bool) :
    ∀ (l : List (Nat × β)), List.Pairwise (fun a b => a.1 < b.1) l →
      ∀ xu xv, l.find? P = some xu → l.find? Q = some xv → xu.1 < xv.1 →
        l.findIdx P < l.findIdx Q := by
  intro l
  induction l with
  | nil => intro _ xu xv hu _ _; simp at hu
  | cons c t ih =>
    intro hpw xu xv hu hv hlt
    have hpw' := List.pairwise_cons.mp hpw
    by_cases hP : P c = true
    · rw [List.find?_cons_of_pos _ hP] at hu
      obtain rfl : c = xu := by simpa using hu
      by_cases hQ : Q c = true
      · rw [List.find?_cons_of_pos _ hQ] at hv
        obtain rfl : c = xv := by simpa using hv
        omega
      · simp [List.findIdx_cons, hP, hQ]
    · rw [List.find?_cons_of_neg _ hP] at hu
      by_cases hQ : Q c = true
      · rw [List.find?_cons_of_pos _ hQ] at hv
        obtain rfl : c = xv := by simpa using hv
        have hxu := List.mem_of_find?_eq_some hu
        have := hpw'.1 xu hxu
        omega
      · rw [List.find?_cons_of_neg _ hQ] at hv
        have := ih hpw'.2 xu xv hu hv hlt
        simp [List.findIdx_cons, hP, hQ]
        omega

/-- `findIdx` on a mapped list tests the composed predicate. -/
lemma findIdx_map_comp {α β : Type} (p : β → Bool) (f : α → β) :
    ∀ l : List α, (l.map f).findIdx p = l.findIdx (fun a => p (f a)) := by
  intro l
  induction l with
  | nil => rfl
  | cons c t ih => simp [List.findIdx_cons, ih]

/-- De-duplication keeps the relative order of first occurrences: if
`u` first occurs strictly before `v`, their positions in the
de-duplicated list are ordered the same way. -/
lemma uniqFirstAux_order :
    ∀ (l seen : List (List Char)) (u v : List Char), u ≠ v →
      u ∉ seen → v ∉ seen →
      l.findIdx (fun x => x == u) < l.findIdx (fun x => x == v) →
      (uniqFirstAux seen l).findIdx (fun x => x == u) <
        (uniqFirstAux seen l).findIdx (fun x => x == v) := by
  intro l
  induction l with
  | nil => intro seen u v _ _ _ hlt; simp [List.findIdx_nil] at hlt
  | cons c t ih =>
    intro seen u v hne hu hv hlt
    by_cases hc : c ∈ seen
    · rw [show uniqFirstAux seen (c :: t) = uniqFirstAux seen t from by
        simp [uniqFirstAux, hc]]
      have hcu : (c == u) = false := beq_eq_false_iff_ne.mpr (fun h => hu (h ▸ hc))
      have hcv : (c == v) = false := beq_eq_false_iff_ne.mpr (fun h => hv (h ▸ hc))
      rw [List.findIdx_cons, List.findIdx_cons, hcu, hcv] at hlt
      simp only [cond_false] at hlt
      exact ih seen u v hne hu hv (by omega)
    · rw [show uniqFirstAux seen (c :: t) = c :: uniqFirstAux (c :: seen) t from by
        simp [uniqFirstAux, hc]]
      by_cases hcu : c = u
      · subst hcu
        have hcv : (c == v) = false := beq_eq_false_iff_ne.mpr hne
        simp [List.findIdx_cons, hcv]
      · by_cases hcv : c = v
        · subst hcv
          have hcu' : (c == u) = false := beq_eq_false_iff_ne.mpr hcu
          rw [List.findIdx_cons, List.findIdx_cons, hcu', beq_self_eq_true] at hlt
          simp at hlt
        · have hcu' : (c == u) = false := beq_eq_false_iff_ne.mpr hcu
          have hcv' : (c == v) = false := beq_eq_false_iff_ne.mpr hcv
          rw [List.findIdx_cons, List.findIdx_cons, hcu', hcv'] at hlt
          simp only [cond_false] at hlt
          have hrec := ih (c :: seen) u v hne
            (by
              intro hmem
              rcases List.mem_cons.mp hmem with h | h
              · exact hcu h.symm
              · exact hu h)
            (by
              intro hmem
              rcases List.mem_cons.mp hmem with h | h
              · exact hcv h.symm
              · exact hv h)
            (by omega)
          rw [List.findIdx_cons, List.findIdx_cons, hcu', hcv']
          simp only [cond_false]
          omega

/-- Claim C1: UUID normalization assigns placeholders in first-appearance
order.  `replaceUUIDs` substitutes the `i`-th distinct UUID value (1-based)
with exactly `00000000-0000-0000-0000-` followed by the 12-digit
zero-padded decimal `i`, and a UUID whose first match offset is smaller
than another distinct UUID's receives a strictly smaller sequence
number. -/
theorem uuid_placeholder_order :
    (∀ s, replaceUUIDs s =
      (assignPairs (findUUIDs s) 1).foldl
        (fun acc pr => replaceAll acc pr.1 pr.2) s) ∧
    (∀ s u v pu pv, u ≠ v →
      firstUUIDOffset s u = some pu → firstUUIDOffset s v = some pv →
      pu < pv → seqNum s u < seqNum s v) := by
  constructor
  · intro s
    exact replaceUUIDsAux_eq_foldl _ _ _
  · intro s u v pu pv hne hu hv hlt
    rcases Option.map_eq_some'.mp hu with ⟨xu, hfu, hxu⟩
    rcases Option.map_eq_some'.mp hv with ⟨xv, hfv, hxv⟩
    have hidx := find_idx_lt _ _ (findAllUUIDMatches 0 s)
      (findAllUUIDMatchesF_pairwise _ _ _) xu xv hfu hfv (by omega)
    have hmap := findIdx_map_comp (fun x => x == u)
      (fun pm : Nat × List Char => uuidValue pm.2) (findAllUUIDMatches 0 s)
    have hmap' := findIdx_map_comp (fun x => x == v)
      (fun pm : Nat × List Char => uuidValue pm.2) (findAllUUIDMatches 0 s)
    have horder := uniqFirstAux_order
      ((findAllUUIDMatches 0 s).map (fun pm => uuidValue pm.2)) [] u v hne
      (List.not_mem_nil _) (List.not_mem_nil _)
      (by rw [hmap, hmap']; exact hidx)
    have hgoal : (findUUIDs s).findIdx (fun x => x == u) <
        (findUUIDs s).findIdx (fun x => x == v) := horder
    simp only [seqNum]
    omega

/-- Witness for C1 on a text with two UUIDs, 37 characters apart. -/
theorem uuid_placeholder_order_witness :
    seqNum
        "a8bee527-12d2-4aff-9823-3511c1c8e6b9 d7a282f6-1c10-459e-bb44-55a1a6d48bdd".toList
        "a8bee527-12d2-4aff-9823-3511c1c8e6b9".toList <
      seqNum
        "a8bee527-12d2-4aff-9823-3511c1c8e6b9 d7a282f6-1c10-459e-bb44-55a1a6d48bdd".toList
        "d7a282f6-1c10-459e-bb44-55a1a6d48bdd".toList :=
  uuid_placeholder_order.2
    "a8bee527-12d2-4aff-9823-3511c1c8e6b9 d7a282f6-1c10-459e-bb44-55a1a6d48bdd".toList
    "a8bee527-12d2-4aff-9823-3511c1c8e6b9".toList
    "d7a282f6-1c10-459e-bb44-55a1a6d48bdd".toList
    0 37 (by decide) (by decide) (by decide) (by decide)

/-- Matching a concatenated pattern splits into matching each part. -/
lemma matchPattern_append (ps qs : List (Char → Bool)) :
    ∀ s, matchPattern (ps ++ qs) s =
      (matchPattern ps s && matchPattern qs (s.drop ps.length)) := by
  induction ps with
  | nil => intro s; simp [matchPattern]
  | cons p pt ih =>
    intro s
    cases s with
    | nil => simp [matchPattern]
    | cons c cs => simp [matchPattern, ih, Bool.and_assoc]

/-- A matching string is at least as long as the pattern. -/
lemma matchPattern_le_length (ps : List (Char → Bool)) :
    ∀ s, matchPattern ps s = true → ps.length ≤ s.length := by
  induction ps with
  | nil => intro s _; simp
  | cons p pt ih =>
    intro s h
    cases s with
    | nil => exact absurd h (by simp [matchPattern])
    | cons c cs =>
      simp only [matchPattern, Bool.and_eq_true] at h
      simpa using ih cs h.2

/-- A fixed-width pattern only inspects the first `ps.length` characters. -/
lemma matchPattern_take (ps : List (Char → Bool)) :
    ∀ s t, ps.length ≤ s.length →
      matchPattern ps (s ++ t) = matchPattern ps s := by
  induction ps with
  | nil => intro s t _; rfl
  | cons p pt ih =>
    intro s t h
    cases s with
    | nil => simp at h
    | cons c cs => simp [matchPattern, ih cs t (by simpa using h)]

/-- The UUID pattern decomposed at the version and variant positions
(offsets 14 and 19). -/
lemma matchPattern_uuid_split (t : List Char) :
    matchPattern uuidPattern t =
      (matchPattern uuidPatPre t &&
        matchPattern [isVersionDigit] (t.drop 14) &&
        matchPattern uuidPatMid (t.drop 15) &&
        matchPattern [isVariantNibble] (t.drop 19) &&
        matchPattern uuidPatTail (t.drop 20)) := by
  have h14 : uuidPatPre.length = 14 := by decide
  have h15 : (uuidPatPre ++ [isVersionDigit]).length = 15 := by decide
  have h19 : (uuidPatPre ++ [isVersionDigit] ++ uuidPatMid).length = 19 := by decide
  have h20 :
      (uuidPatPre ++ [isVersionDigit] ++ uuidPatMid ++ [isVariantNibble]).length = 20 := by
    decide
  simp only [uuidPattern, matchPattern_append, h14, h15, h19, h20, Bool.and_assoc]

/-- The generic 8-4-4-4-12 shape decomposed at the same positions. -/
lemma matchPattern_generic_split (t : List Char) :
    matchPattern genericUUIDPattern t =
      (matchPattern uuidPatPre t &&
        matchPattern [isHexDigit] (t.drop 14) &&
        matchPattern uuidPatMid (t.drop 15) &&
        matchPattern [isHexDigit] (t.drop 19) &&
        matchPattern uuidPatTail (t.drop 20)) := by
  have h14 : uuidPatPre.length = 14 := by decide
  have h15 : (uuidPatPre ++ [isHexDigit]).length = 15 := by decide
  have h19 : (uuidPatPre ++ [isHexDigit] ++ uuidPatMid).length = 19 := by decide
  have h20 :
      (uuidPatPre ++ [isHexDigit] ++ uuidPatMid ++ [isHexDigit]).length = 20 := by
    decide
  simp only [genericUUIDPattern, matchPattern_append, h14, h15, h19, h20, Bool.and_assoc]

/-- When no position of `s` starts a UUID match, the scan is empty. -/
lemma findAllUUIDMatchesF_eq_nil :
    ∀ (fuel pos : Nat) (s : List Char),
      (∀ n, matchPattern uuidPattern (s.drop n) = false) →
      findAllUUIDMatchesF fuel pos s = [] := by
  intro fuel
  induction fuel with
  | zero => intro pos s _; cases s <;> rfl
  | succ k ih =>
    intro pos s h
    cases s with
    | nil => rfl
    | cons c rest =>
      rw [findAllUUIDMatchesF]
      rw [if_neg (by simpa using congrArg (· = true) (h 0))]
      exact ih _ rest (fun n => by simpa [List.drop_succ_cons] using h (n + 1))

/-- Claim C8: the UUID finder matches a 36-character hyphenated hex
string exactly when its version digit (position 14, the first character
of the third group) is in `1..5` and its variant nibble (position 19,
the first character of the fourth group) is in `{8,9,a,b,A,B}`; a
generic 8-4-4-4-12 hex-hyphen string failing this constraint is not
matched anywhere, so normalization leaves it unchanged. -/
theorem uuid_version_variant_constraint (w rest : List Char)
    (hw : matchPattern genericUUIDPattern w = true) (hlen : w.length = 36) :
    (matchPattern uuidPattern (w ++ rest) = true ↔
      (matchPattern [isVersionDigit] (w.drop 14) = true ∧
        matchPattern [isVariantNibble] (w.drop 19) = true)) ∧
    (¬(matchPattern [isVersionDigit] (w.drop 14) = true ∧
        matchPattern [isVariantNibble] (w.drop 19) = true) →
      findUUIDs w = [] ∧ replaceUUIDs w = w) := by
  have hpatlen : uuidPattern.length = 36 := by decide
  have hgen := matchPattern_generic_split w
  rw [hw] at hgen
  have hgen' := hgen.symm
  simp only [Bool.and_eq_true] at hgen'
  have hsplit : matchPattern uuidPattern (w ++ rest) =
      (matchPattern [isVersionDigit] (w.drop 14) &&
        matchPattern [isVariantNibble] (w.drop 19)) := by
    rw [matchPattern_take uuidPattern w rest (by rw [hlen, hpatlen]),
      matchPattern_uuid_split w, hgen'.1.1.1.1, hgen'.1.1.2, hgen'.2]
    simp [Bool.and_comm, Bool.and_left_comm]
  constructor
  · rw [hsplit]
    simp
  · intro hno
    have hw0 : matchPattern uuidPattern w = false := by
      have hsplit0 : matchPattern uuidPattern w =
          (matchPattern [isVersionDigit] (w.drop 14) &&
            matchPattern [isVariantNibble] (w.drop 19)) := by
        rw [matchPattern_uuid_split w, hgen'.1.1.1.1, hgen'.1.1.2, hgen'.2]
        simp [Bool.and_comm, Bool.and_left_comm]
      rw [hsplit0]
      by_cases h14 : matchPattern [isVersionDigit] (w.drop 14) = true
      · by_cases h19 : matchPattern [isVariantNibble] (w.drop 19) = true
        · exact absurd ⟨h14, h19⟩ hno
        · simp [Bool.eq_false_iff.mpr h19]
      · simp [Bool.eq_false_iff.mpr h14]
    have hdrops : ∀ n, matchPattern uuidPattern (w.drop n) = false := by
      intro n
      cases n with
      | zero => simpa using hw0
      | succ m =>
        by_cases h : matchPattern uuidPattern (w.drop (m + 1)) = true
        · have hle := matchPattern_le_length _ _ h
          rw [hpatlen, List.length_drop, hlen] at hle
          omega
        · exact Bool.eq_false_iff.mpr h
    have hscan : findAllUUIDMatches 0 w = [] :=
      findAllUUIDMatchesF_eq_nil _ _ _ hdrops
    have hfind : findUUIDs w = [] := by
      rw [findUUIDs, hscan]
      rfl
    refine ⟨hfind, ?_⟩
    rw [replaceUUIDs, hfind]
    rfl

/-- Does the text start with a decimal digit? -/
def headIsDigit : List Char → Bool
  | [] => false
  | c :: _ => isDigitCh c

/-- The leading digit run of `ys ++ r` is all of `ys` when `ys` is all
digits and `r` does not start with one. -/
lemma countLeadingDigits_append (ys r : List Char)
    (hall : ys.all isDigitCh = true) (hr : headIsDigit r = false) :
    countLeadingDigits (ys ++ r) = ys.length := by
  induction ys with
  | nil =>
    cases r with
    | nil => rfl
    | cons c t =>
      simp only [headIsDigit] at hr
      simp [countLeadingDigits, hr]
  | cons c t ih =>
    simp only [List.all_cons, Bool.and_eq_true] at hall
    simp [countLeadingDigits, hall.1, ih hall.2]

/-- A two-character component accepted in isolation is accepted in
front of any continuation, consuming exactly its two characters. -/
lemma twoCharM_append (p : Char → Char → Bool) (mm r : List Char)
    (h : twoCharM p mm = some []) : twoCharM p (mm ++ r) = some r := by
  cases mm with
  | nil => simp [twoCharM] at h
  | cons c1 t1 =>
    cases t1 with
    | nil => simp [twoCharM] at h
    | cons c2 t2 =>
      have h' : (if p c1 c2 = true then some t2 else none) = some [] := h
      by_cases hp : p c1 c2 = true
      · rw [if_pos hp] at h'
        obtain rfl : t2 = [] := by simpa using h'
        show (if p c1 c2 = true then some ([] ++ r) else none) = some r
        rw [if_pos hp]
        simp
      · rw [if_neg hp] at h'
        exact absurd h' (by simp)

/-- A single-character class accepted at the head consumes it. -/
lemma chCl_cons (p : Char → Bool) (c : Char) (r : List Char) (h : p c = true) :
    chCl p (c :: r) = some r := by
  simp [chCl, h]

/-- Sequencing steps through an established first match. -/
lemma seqM_step (a b : TimeM) (s r : List Char) (h : a s = some r) :
    seqM a b s = b r := by
  simp [seqM, h]

/-- A literal character at the head is consumed. -/
lemma litCh_cons (x c : Char) (r : List Char) (h : (c == x) = true) :
    litCh x (c :: r) = some r :=
  chCl_cons (fun y => y == x) c r h

/-- `subSecond` consumes nothing when no `.` follows. -/
lemma subSecondM_skip (c : Char) (r : List Char) (h : (c == '.') = false) :
    subSecondM (c :: r) = some (c :: r) := by
  simp [subSecondM, h]

/-- `subSecond` greedily consumes `.` plus a digit run when the
continuation does not start with a digit. -/
lemma subSecondM_frac (ds t : List Char) (hds : ds ≠ [])
    (hall : ds.all isDigitCh = true) (ht : headIsDigit t = false) :
    subSecondM ('.' :: (ds ++ t)) = some t := by
  show (if ('.' == '.') = true then
      if countLeadingDigits (ds ++ t) = 0 then some ('.' :: (ds ++ t))
      else some ((ds ++ t).drop (countLeadingDigits (ds ++ t)))
    else some ('.' :: (ds ++ t))) = some t
  rw [if_pos (by decide)]
  rw [countLeadingDigits_append ds t hall ht]
  rw [if_neg (by simpa using fun h => hds (List.length_eq_zero.mp h))]
  rw [List.drop_left]

/-- A time zone accepted by `tzM` starts with one of `Zz+|-`: not a
digit and not a `.`, so `subSecond` never eats into it. -/
lemma tzM_shape (tz : List Char) (h : tzM tz = some []) :
    headIsDigit tz = false ∧ subSecondM tz = some tz := by
  cases tz with
  | nil => simp [tzM] at h
  | cons c rest =>
    replace h :
        (if (c == 'Z' || c == 'z') = true then some rest
         else if (c == '+' || c == '|' || c == '-') = true then
           (seqM (twoCharM hourChars) (seqM (litCh ':') (twoCharM minuteChars))) rest
         else none) = some [] := h
    by_cases h1 : (c == 'Z' || c == 'z') = true
    · rcases by simpa using h1 with rfl | rfl
      · exact ⟨rfl, subSecondM_skip _ _ (by decide)⟩
      · exact ⟨rfl, subSecondM_skip _ _ (by decide)⟩
    · rw [if_neg h1] at h
      by_cases h2 : (c == '+' || c == '|' || c == '-') = true
      · rcases by simpa using h2 with (rfl | rfl) | rfl
        · exact ⟨rfl, subSecondM_skip _ _ (by decide)⟩
        · exact ⟨rfl, subSecondM_skip _ _ (by decide)⟩
        · exact ⟨rfl, subSecondM_skip _ _ (by decide)⟩
      · rw [if_neg h2] at h
        exact absurd h (by simp)

/-- The RFC3339 shape
`year - month - day [Tt] hour : minute : second subSecond timeZone`
as an explicit concatenation of its components. -/
def rfc3339Span (ys mm dd : List Char) (ct : Char)
    (hh mi ss fr tz : List Char) : List Char :=
  ys ++ ('-' :: (mm ++ ('-' :: (dd ++ (ct :: (hh ++ (':' :: (mi ++ (':' ::
    (ss ++ (fr ++ tz)))))))))))

/-- Claim C10: the RFC3339 matcher accepts a year field of any positive
number of digits — not only four.  Every span built from a nonempty
all-digit year, in-range month, day, hour, minute and second components,
an optional fraction and a `Z`/`z` or offset time zone is matched in
full, and `replaceTimes` collapses it to `0001-01-01T00:00:00Z`. -/
theorem rfc3339_any_year_length
    (ys mm dd hh mi ss fr tz : List Char) (ct : Char)
    (hys : ys ≠ []) (hall : ys.all isDigitCh = true)
    (hmm : twoCharM monthChars mm = some [])
    (hdd : twoCharM dayChars dd = some [])
    (hct : (ct == 'T' || ct == 't') = true)
    (hhh : twoCharM hourChars hh = some [])
    (hmi : twoCharM minuteChars mi = some [])
    (hss : twoCharM secondChars ss = some [])
    (hfr : fr = [] ∨ ∃ ds, fr = '.' :: ds ∧ ds ≠ [] ∧ ds.all isDigitCh = true)
    (htz : tzM tz = some []) :
    rfc3339Len (rfc3339Span ys mm dd ct hh mi ss fr tz) =
      some (rfc3339Span ys mm dd ct hh mi ss fr tz).length ∧
    replaceTimes (rfc3339Span ys mm dd ct hh mi ss fr tz) =
      rfc3339Replacement := by
  have htzs := tzM_shape tz htz
  have hy : yearM (rfc3339Span ys mm dd ct hh mi ss fr tz) =
      some ('-' :: (mm ++ ('-' :: (dd ++ (ct :: (hh ++ (':' :: (mi ++ (':' ::
        (ss ++ (fr ++ tz))))))))))) := by
    have hcnt := countLeadingDigits_append ys
      ('-' :: (mm ++ ('-' :: (dd ++ (ct :: (hh ++ (':' :: (mi ++ (':' ::
        (ss ++ (fr ++ tz)))))))))))
      hall rfl
    simp only [rfc3339Span, yearM]
    rw [hcnt]
    rw [if_neg (by simpa using fun h => hys (List.length_eq_zero.mp h))]
    rw [List.drop_left]
  have hsub : subSecondM (fr ++ tz) = some tz := by
    rcases hfr with rfl | ⟨ds, rfl, hds, hds2⟩
    · simpa using htzs.2
    · exact subSecondM_frac ds tz hds hds2 htzs.1
  have hmatch : rfc3339M (rfc3339Span ys mm dd ct hh mi ss fr tz) = some [] := by
    unfold rfc3339M
    rw [seqM_step _ _ _ _ hy]
    rw [seqM_step _ _ _ _ (litCh_cons '-' '-' _ (by decide))]
    rw [seqM_step _ _ _ _ (twoCharM_append _ _ _ hmm)]
    rw [seqM_step _ _ _ _ (litCh_cons '-' '-' _ (by decide))]
    rw [seqM_step _ _ _ _ (twoCharM_append _ _ _ hdd)]
    rw [seqM_step _ _ _ _ (chCl_cons (fun c => c == 'T' || c == 't') ct _ hct)]
    rw [seqM_step _ _ _ _ (twoCharM_append _ _ _ hhh)]
    rw [seqM_step _ _ _ _ (litCh_cons ':' ':' _ (by decide))]
    rw [seqM_step _ _ _ _ (twoCharM_append _ _ _ hmi)]
    rw [seqM_step _ _ _ _ (litCh_cons ':' ':' _ (by decide))]
    rw [seqM_step _ _ _ _ (twoCharM_append _ _ _ hss)]
    rw [seqM_step _ _ _ _ hsub]
    exact htz
  have hlen : rfc3339Len (rfc3339Span ys mm dd ct hh mi ss fr tz) =
      some (rfc3339Span ys mm dd ct hh mi ss fr tz).length := by
    simp [rfc3339Len, matchLen, hmatch]
  refine ⟨hlen, ?_⟩
  obtain ⟨y0, yt, rfl⟩ : ∃ y0 yt, ys = y0 :: yt := by
    cases ys with
    | nil => exact absurd rfl hys
    | cons y0 yt => exact ⟨y0, yt, rfl⟩
  have hfull : replaceAllMatches rfc3339Len rfc3339Replacement
      (rfc3339Span (y0 :: yt) mm dd ct hh mi ss fr tz) = rfc3339Replacement :=
    replaceAllMatches_of_full _ _ y0
      (yt ++ ('-' :: (mm ++ ('-' :: (dd ++ (ct :: (hh ++ (':' :: (mi ++ (':' ::
        (ss ++ (fr ++ tz)))))))))))) hlen
  show replaceAllMatches rfc7232Len rfc7232Replacement
      (replaceAllMatches rfc3339Len rfc3339Replacement
        (rfc3339Span (y0 :: yt) mm dd ct hh mi ss fr tz)) = rfc3339Replacement
  rw [hfull]
  exact replaceAllMatches_of_no_match _ _ _ (by decide)

/-- Witness for C10 at a two-digit and a six-digit year, the latter with
a fraction and a numeric offset. -/
theorem rfc3339_any_year_length_witness :
    replaceTimes "20-01-02T03:04:05Z".toList = rfc3339Replacement ∧
    replaceTimes "999999-12-31t23:59:60.5+23:59".toList = rfc3339Replacement :=
  ⟨(rfc3339_any_year_length "20".toList "01".toList "02".toList "03".toList
      "04".toList "05".toList [] "Z".toList 'T' (by decide) (by decide)
      (by decide) (by decide) (by decide) (by decide) (by decide) (by decide)
      (Or.inl rfl) (by decide)).2,
   (rfc3339_any_year_length "999999".toList "12".toList "31".toList "23".toList
      "59".toList "60".toList ".5".toList "+23:59".toList 't' (by decide)
      (by decide) (by decide) (by decide) (by decide) (by decide) (by decide)
      (by decide) (Or.inr ⟨"5".toList, rfl, by decide, by decide⟩)
      (by decide)).2⟩

/-- Witness for C8: a generic hex-hyphen string with version digit `0`
is not matched and survives normalization; restoring a valid version
digit makes the pattern match. -/
theorem uuid_version_variant_constraint_witness :
    (findUUIDs "12345678-1234-0234-8234-123456789abc".toList = [] ∧
      replaceUUIDs "12345678-1234-0234-8234-123456789abc".toList =
        "12345678-1234-0234-8234-123456789abc".toList) ∧
    matchPattern uuidPattern
      ("12345678-1234-4234-8234-123456789abc".toList ++ "!".toList) = true :=
  ⟨(uuid_version_variant_constraint "12345678-1234-0234-8234-123456789abc".toList
      [] (by decide) (by decide)).2 (by decide),
   (uuid_version_variant_constraint "12345678-1234-4234-8234-123456789abc".toList
      "!".toList (by decide) (by decide)).1.mpr ⟨by decide, by decide⟩⟩

example :
    findUUIDs "x d7a282f6-1c10-459e-bb44-55a1a6d48bdd y".toList =
      ["d7a282f6-1c10-459e-bb44-55a1a6d48bdd".toList] := by decide

example :
    replaceUUIDs "id: d7a282f6-1c10-459e-bb44-55a1a6d48bdd".toList =
      "id: 00000000-0000-0000-0000-000000000001".toList := by decide
